import Mathlib

/-!
Verification of the Roy retrieval-augmented memory engine.

This file gives a shallow embedding of the core of the engine
(src/rag/retrieval.ts, src/rag/chunk.ts, src/rag/classifier.ts,
src/rag/ann.ts, src/rag/db.ts, src/rag/index.ts) and proves or refutes
the specified properties about it.

Modelling conventions:
* JavaScript numbers are modelled as real numbers; `Math.sqrt` is
  `Real.sqrt` and `Math.pow` is `Real.rpow`.
* Strings are Lean `String`s; `localeCompare` is the lexicographic
  order on `String`.
* The injected capabilities (tokenizer, embedding model, `Date.now`,
  `randomUUID`) are parameters collected in an `Env` structure.
* The SQLite store is a `Db` value; fallible database calls return
  `Except String`; a thrown-and-rolled-back transaction is an
  `Except.error` result that leaves the caller with the old state.
* TypeScript stores `kind` and `scope` as plain strings at runtime
  (the source casts arbitrary strings into the `MemoryKind` union, for
  example `"auto"` and `"conversation"`), so stored records carry
  `String` kinds, while the classifier returns the `MemoryKind` enum.
-/

namespace Roy

/-- The six-value kind enum of src/rag/types.ts (`MemoryKind`). -/
inductive MemoryKind where
  | identity
  | task
  | knowledge
  | reference
  | note
  | unclassified
deriving DecidableEq, Repr

/-- String form of a kind, as stored in the database. -/
def MemoryKind.toString : MemoryKind → String
  | .identity => "identity"
  | .task => "task"
  | .knowledge => "knowledge"
  | .reference => "reference"
  | .note => "note"
  | .unclassified => "unclassified"

/-- A persistent memory row (`MemoryRecord` of src/rag/types.ts).
Numeric JS fields are reals, timestamps are integers (epoch ms) and
`kind` / `scope` are the runtime strings actually stored. -/
structure MemoryRecord where
  id : String
  parentId : String
  chunkIndex : Nat
  content : String
  kind : String
  scope : String
  importance : ℝ
  tokenCount : Nat
  recallCount : Nat
  lastRecalledAt : Option ℤ
  validityScore : ℝ
  isNegative : Bool
  createdAt : ℤ
  updatedAt : ℤ
  embedding : Option (List ℝ)

/-- A scored candidate (`ScoredMemory` of src/rag/types.ts). -/
structure ScoredMemory extends MemoryRecord where
  vectorScore : ℝ
  lexicalScore : ℝ
  recencyScore : ℝ
  importanceScore : ℝ
  score : ℝ

/-! ## src/rag/retrieval.ts -/

/-- Sum of pairwise products of two lists, the loop accumulator
pattern of `cosine` in src/rag/retrieval.ts. -/
def dotList (a b : List ℝ) : ℝ := (List.zipWith (· * ·) a b).sum

/-- Sum of squares of a list (the `na` / `nb` accumulators). -/
def sumSq (a : List ℝ) : ℝ := (a.map (fun x => x * x)).sum

/-- `cosine` of src/rag/retrieval.ts: returns 0 on empty input, on a
length mismatch and on a zero-norm vector, otherwise the exact cosine
similarity. -/
noncomputable def cosine (a b : List ℝ) : ℝ :=
  if a.length = 0 ∨ b.length = 0 ∨ a.length ≠ b.length then 0
  else if sumSq a = 0 ∨ sumSq b = 0 then 0
  else dotList a b / (Real.sqrt (sumSq a) * Real.sqrt (sumSq b))

/-- Character class of the lexical tokenizer regex
`[^a-z0-9一-龥\s]` (kept characters, after lowercasing). -/
def keptChar (c : Char) : Bool :=
  (0x61 ≤ c.toNat && c.toNat ≤ 0x7a) || (0x30 ≤ c.toNat && c.toNat ≤ 0x39) ||
    (0x4e00 ≤ c.toNat && c.toNat ≤ 0x9fa5)

/-- Whitespace class used by the JS regexes (`\s`). -/
def jsWs (c : Char) : Bool :=
  c = ' ' || c = '\t' || c = '\n' || c = '\r' || c = '\x0b' || c = '\x0c'

/-- The JavaScript `String.prototype.trim()`: strip leading and
trailing whitespace. -/
def jsTrim (s : String) : String :=
  String.mk (((s.toList.dropWhile jsWs).reverse.dropWhile jsWs).reverse)

/-- Split a character list on whitespace, dropping empty fragments:
the `split(/\s+/).filter(Boolean)` idiom. -/
def splitWsAux (cur : List Char) (acc : List String) : List Char → List String
  | [] => if cur = [] then acc.reverse else (String.mk cur.reverse :: acc).reverse
  | c :: cs =>
      if jsWs c then
        if cur = [] then splitWsAux [] acc cs
        else splitWsAux [] (String.mk cur.reverse :: acc) cs
      else splitWsAux (c :: cur) acc cs

/-- `tokenize` of src/rag/retrieval.ts (identical to the one in
src/rag/query.ts): lowercase, replace every character outside
`[a-z0-9一-龥\s]` by a space, split on whitespace runs and
drop empties. -/
def lexTokenize (text : String) : List String :=
  let lowered := text.toList.map Char.toLower
  let replaced := lowered.map (fun c => if keptChar c || jsWs c then c else ' ')
  splitWsAux [] [] replaced

/-- Case-insensitive substring test, the
`content.toLowerCase().includes(query.toLowerCase())` check. -/
def containsCI (content query : String) : Bool :=
  decide (List.IsInfix (query.toList.map Char.toLower) (content.toList.map Char.toLower))

/-- `lexicalScore` of src/rag/retrieval.ts. -/
noncomputable def lexicalScore (query content : String) : ℝ :=
  let q := lexTokenize query
  let cTokens := lexTokenize content
  if q.length = 0 then 0
  else
    let hit := (q.filter (fun token => cTokens.contains token)).length
    let overlap := (hit : ℝ) / (q.length : ℝ)
    let contains : ℝ := if containsCI content query then 0.3 else 0
    min 1 (overlap + contains)

/-- `recencyScore` of src/rag/retrieval.ts; `now` is the value of
`Date.now()` at scoring time. -/
noncomputable def recencyScore (now updatedAt : ℤ) : ℝ :=
  let ageHours : ℝ := max 1 (((now : ℝ) - (updatedAt : ℝ)) / 3600000)
  min 1 (24 / ageHours)

/-- Clamp to the unit interval, the `Math.max(0, Math.min(1, x))`
idiom. -/
def clamp01 (x : ℝ) : ℝ := max 0 (min 1 x)

/-- `effectiveImportance` of src/rag/retrieval.ts. -/
noncomputable def effectiveImportance (now : ℤ) (importance : ℝ) (updatedAt : ℤ) : ℝ :=
  let ageDays : ℝ := max 0 (((now : ℝ) - (updatedAt : ℝ)) / 86400000)
  let decay := Real.rpow 0.99 ageDays
  clamp01 importance * decay

/-- Scoring of one candidate record: the body of the `memories.map`
closure inside `scoreCandidates` of src/rag/retrieval.ts. -/
noncomputable def scoreOne (now : ℤ) (query : String) (queryEmbedding : Option (List ℝ))
    (lexicalHitIds : List String) (m : MemoryRecord) : ScoredMemory :=
  let vectorScore : ℝ :=
    match queryEmbedding, m.embedding with
    | some qe, some me => max 0 (cosine qe me)
    | _, _ => 0
  let lexical := lexicalScore query m.content
  let lexicalBoost := if lexicalHitIds.contains m.id then min 1 (lexical + 0.4) else lexical
  let recency := recencyScore now m.updatedAt
  let importance := effectiveImportance now m.importance m.updatedAt
  let validity := clamp01 m.validityScore
  let negativePenalty : ℝ := if m.isNegative then 0.25 else 0
  let score := 0.6 * vectorScore + 0.2 * lexicalBoost + 0.1 * importance + 0.1 * recency
  let adjusted := max 0 (score * validity - negativePenalty)
  { m with
    vectorScore := vectorScore
    lexicalScore := lexicalBoost
    recencyScore := recency
    importanceScore := importance
    score := adjusted }

/-- `scoreCandidates` of src/rag/retrieval.ts. -/
noncomputable def scoreCandidates (now : ℤ) (query : String)
    (queryEmbedding : Option (List ℝ)) (memories : List MemoryRecord)
    (lexicalHitIds : List String) : List ScoredMemory :=
  memories.map (scoreOne now query queryEmbedding lexicalHitIds)

/-- Pairwise similarity used by the MMR loop: `Math.max(0, cosine)`
when both embeddings are present, otherwise 0. -/
noncomputable def mmrSim (a b : ScoredMemory) : ℝ :=
  match a.embedding, b.embedding with
  | some ea, some eb => max 0 (cosine ea eb)
  | _, _ => 0

/-- `maxSimilarity` of the MMR loop: 0 for an empty selection, else
the maximum pairwise similarity against the selected items
(`Math.max(...selected.map(...))`). -/
noncomputable def mmrMaxSim (selected : List ScoredMemory) (cand : ScoredMemory) : ℝ :=
  match selected with
  | [] => 0
  | s :: rest => (rest.map (mmrSim cand)).foldl max (mmrSim cand s)

/-- The MMR objective `λ·score − (1−λ)·maxSimilarity`. -/
noncomputable def mmrValue (lambda : ℝ) (selected : List ScoredMemory)
    (cand : ScoredMemory) : ℝ :=
  lambda * cand.score - (1 - lambda) * mmrMaxSim selected cand

/-- Scan of the inner `for` loop of `rerankWithMMR`: running best
index and best value, strict `>` so the earliest maximum wins. The
JS loop starts from `bestValue = -Infinity`, so the element at index
0 always wins the first comparison; `bestIdx` bakes that in by
starting the scan from index 0's value. -/
noncomputable def bestIdxGo (lambda : ℝ) (selected : List ScoredMemory) :
    Nat → Nat → ℝ → List ScoredMemory → Nat
  | _, bi, _, [] => bi
  | i, bi, bv, c :: cs =>
      if mmrValue lambda selected c > bv then bestIdxGo lambda selected (i + 1) i (mmrValue lambda selected c) cs
      else bestIdxGo lambda selected (i + 1) bi bv cs

/-- Index of the pool element maximizing the MMR objective (first
maximum on ties), for a nonempty pool `p :: ps`. -/
noncomputable def bestIdx (lambda : ℝ) (selected : List ScoredMemory)
    (p : ScoredMemory) (ps : List ScoredMemory) : Nat :=
  bestIdxGo lambda selected 1 0 (mmrValue lambda selected p) ps

/-- The `while` loop of `rerankWithMMR`: repeatedly move the best
pool element (by MMR value) into the selection. The fuel argument is
`limit - selected.length`, which decreases by one per iteration
exactly as in the source loop condition
`selected.length < limit && pool.length > 0`. -/
noncomputable def mmrLoop (lambda : ℝ) : Nat → List ScoredMemory → List ScoredMemory →
    List ScoredMemory
  | 0, selected, _ => selected
  | _ + 1, selected, [] => selected
  | fuel + 1, selected, p :: ps =>
      let i := bestIdx lambda selected p ps
      let picked := (p :: ps).getD i p
      mmrLoop lambda fuel (selected ++ [picked]) ((p :: ps).eraseIdx i)

/-- Comparator of the initial `pool.sort((a, b) => b.score - a.score)`
(stable descending sort by score). -/
noncomputable def scoreDescLe (a b : ScoredMemory) : Bool :=
  decide (b.score ≤ a.score)

/-- Comparator of the final presentation sort: score descending, then
`updatedAt` descending, then id ascending (`localeCompare`). -/
noncomputable def presentLe (a b : ScoredMemory) : Bool :=
  decide (b.score < a.score) ||
    (decide (b.score = a.score) &&
      (decide (b.updatedAt < a.updatedAt) ||
        (decide (b.updatedAt = a.updatedAt) && decide (a.id ≤ b.id))))

/-- `rerankWithMMR` of src/rag/retrieval.ts. JavaScript array sorts
are modelled as stable merge sorts with the comparator translated to
a `Bool`-valued less-or-equal test. -/
noncomputable def rerankWithMMR (candidates : List ScoredMemory) (limit : Nat)
    (lambda : ℝ := 0.75) : List ScoredMemory :=
  if candidates.length ≤ limit then candidates
  else
    let pool := candidates.mergeSort scoreDescLe
    (mmrLoop lambda limit [] pool).mergeSort presentLe

/-! ## src/rag/chunk.ts -/

/-- Collapse every whitespace run to a single space: the
`replace(/\s+/g, " ")` step. The boolean tracks whether the previous
character was part of a whitespace run. -/
def collapseWsAux : Bool → List Char → List Char
  | _, [] => []
  | inRun, c :: cs =>
      if jsWs c then
        if inRun then collapseWsAux true cs else ' ' :: collapseWsAux true cs
      else c :: collapseWsAux false cs

/-- The normalization step of `chunkText`:
`text.trim().replace(/\s+/g, " ")`. -/
def normalizeWs (text : String) : String :=
  String.mk (collapseWsAux false (jsTrim text).toList)

/-- Token windows of the sliding-window loop of `chunkText`: starting
from `start`, windows `[start, min count (start + chunk))` advancing
by `max 1 step`, stopping after the first window whose end reaches
`count` (the `if (end >= tokenIds.length) break` line). -/
def chunkWindowsFrom (count chunk step : Nat) (start : Nat) : List (Nat × Nat) :=
  if _h : start < count then
    if count ≤ start + chunk then [(start, min count (start + chunk))]
    else (start, min count (start + chunk)) :: chunkWindowsFrom count chunk step (start + max 1 step)
  else []
termination_by count - start
decreasing_by
  have h1 : 1 ≤ max 1 step := le_max_left 1 step
  omega

/-- `chunkText` of src/rag/chunk.ts, parametric in the injected
tokenizer: `tok` is `tokenizeText` and `dec` is `decodeTokens`
composed with the trailing `.trim()` done by the chunk loop. -/
def chunkText (tok : String → List Nat) (dec : List Nat → String) (text : String)
    (chunkTokens overlapTokens : Nat) : List String :=
  let normalized := normalizeWs text
  if normalized = "" then []
  else
    let tokenIds := tok normalized
    if tokenIds.length = 0 then []
    else if tokenIds.length ≤ chunkTokens then [normalized]
    else
      let step := chunkTokens - overlapTokens
      (chunkWindowsFrom tokenIds.length chunkTokens step 0).filterMap fun w =>
        let textChunk := jsTrim (dec ((tokenIds.drop w.1).take (w.2 - w.1)))
        if textChunk = "" then none else some textChunk

/-- `estimateTokenCount` of src/rag/chunk.ts. -/
def estimateTokenCount (tok : String → List Nat) (text : String) : Nat :=
  if jsTrim text = "" then 0 else (tok text).length

/-! ## src/rag/classifier.ts

The classifier consumes two external inputs: the prototype embeddings
produced by the embedding model (`getPrototypeEmbeddings`) and the ANN
neighbors returned by `searchKindNeighbors`; both are passed in as
parameters. The process-wide `learnedPrototypes` table is threaded
through as explicit state, and neighbor kinds are the raw strings
stored in the database. -/

/-- The `KINDS` array: the five classifiable kinds in enum order. -/
def classifiableKinds : List MemoryKind :=
  [.identity, .task, .knowledge, .reference, .note]

/-- `prototypeScore`: best of `max 0 (cosine)` against the static and
learned prototypes of a kind, starting from `best = -1`, clamped to
`max 0` at the end; 0 when there are no prototypes at all. -/
noncomputable def prototypeScore (memoryEmbedding : List ℝ) (kind : MemoryKind)
    (protos learned : MemoryKind → List (List ℝ)) : ℝ :=
  let all := protos kind ++ learned kind
  if all.length = 0 then 0
  else max 0 ((all.map (fun p => max 0 (cosine memoryEmbedding p))).foldl max (-1))

/-- `densityScore` for one kind: the average ANN-neighbor score over
neighbors of that kind, 0 when it has no neighbors. Neighbors whose
stored kind string is not a classifiable kind are skipped
(the `KINDS.includes` check). -/
noncomputable def densityScore (neighbors : List (String × ℝ)) (kind : MemoryKind) : ℝ :=
  let xs := neighbors.filter (fun n => n.1 = kind.toString)
  if xs = [] then 0 else (xs.map Prod.snd).sum / (xs.length : ℝ)

/-- Append an embedding to a kind's learned-prototype queue, evicting
the oldest entry when the queue holds `MAX_LEARNED_PROTOTYPES_PER_KIND
= 64` vectors (the `shift()` call). -/
def pushLearned (learned : MemoryKind → List (List ℝ)) (kind : MemoryKind)
    (emb : List ℝ) : MemoryKind → List (List ℝ) :=
  fun k =>
    if k = kind then
      (if 64 ≤ (learned kind).length then (learned kind).drop 1 else learned kind) ++ [emb]
    else learned k

/-- The fold of the fallback decision loop: strict `>` against the
running best, with `none` standing for the initial
`bestScore = -Infinity` (so the first kind always replaces it, exactly
as any real exceeds `-Infinity`). -/
noncomputable def combinedFoldStep (combined : MemoryKind → ℝ) :
    MemoryKind × Option ℝ → MemoryKind → MemoryKind × Option ℝ
  | (_, none), k => (k, some (combined k))
  | (bk, some bv), k =>
      if combined k > bv then (k, some (combined k)) else (bk, some bv)

/-- `inferKindByEmbedding` of src/rag/classifier.ts. Returns the
classification result together with the updated learned-prototype
state. The `Number.isFinite(bestScore)` guard corresponds to the
`Option.getD 0` applied to the fold result (the score is `-Infinity`
only when no kind was visited). -/
noncomputable def inferKindByEmbedding (memoryEmbedding : List ℝ)
    (protos learned : MemoryKind → List (List ℝ)) (neighbors : List (String × ℝ)) :
    (MemoryKind × ℝ) × (MemoryKind → List (List ℝ)) :=
  if memoryEmbedding.length = 0 then ((.unclassified, 0), learned)
  else
    let prototypeOnly : MemoryKind → ℝ :=
      fun k => prototypeScore memoryEmbedding k protos learned
    let topTwo :=
      classifiableKinds.mergeSort (fun a b => decide (prototypeOnly b ≤ prototypeOnly a))
    let combined : MemoryKind → ℝ := fun k =>
      let pScore := prototypeOnly k
      let dScore := densityScore neighbors k
      let gatedDensity := if pScore ≥ 0.35 then dScore else dScore * 0.25
      0.9 * pScore + 0.1 * gatedDensity
    let fallback : (MemoryKind × ℝ) × (MemoryKind → List (List ℝ)) :=
      let best := classifiableKinds.foldl (combinedFoldStep combined) (.knowledge, none)
      let confidence := best.2.getD 0
      let finalKind : MemoryKind := if confidence < 0.28 then .unclassified else best.1
      ((finalKind, confidence),
        if finalKind ≠ .unclassified ∧ confidence > 0.93 then
          pushLearned learned finalKind memoryEmbedding
        else learned)
    match topTwo with
    | top0 :: top1 :: _ =>
      if prototypeOnly top0 ≥ 0.52 ∧ prototypeOnly top0 - prototypeOnly top1 ≥ 0.045 then
        ((top0, prototypeOnly top0),
          if prototypeOnly top0 > 0.93 then pushLearned learned top0 memoryEmbedding
          else learned)
      else fallback
    | _ => fallback

/-! ## src/rag/ann.ts and src/rag/db.ts

The SQLite file is modelled as a `Db` value. `annTable` is the
`memory_vec` virtual table: `none` when the sqlite-vec extension
failed to load (so the `CREATE VIRTUAL TABLE` never ran and every
prepared statement against it throws), `some entries` when it exists.
`annEnabled` is the process-wide `annStatus.enabled` flag. `fts` is
the best-effort `memory_fts` table, `none` when its creation failed. -/

/-- One row of the `memory_vec` virtual table. -/
structure AnnEntry where
  id : String
  scope : String
  vec : List ℝ

/-- The persistent store: record table, ANN status flag, optional ANN
virtual table and optional FTS table. -/
structure Db where
  records : List MemoryRecord
  annEnabled : Bool
  annTable : Option (List AnnEntry)
  fts : Option (List (String × String))

/-- `EMBEDDING_DIM` of src/rag/ann.ts. -/
def EMBEDDING_DIM : Nat := 384

/-- `upsertEmbedding` of src/rag/ann.ts: silently a no-op when the
embedding is null or its length is not `EMBEDDING_DIM` (this check
precedes any statement preparation), otherwise delete-then-insert on
`memory_vec`, which throws when that table is missing. -/
def upsertEmbedding (db : Db) (id scope : String) (embedding : Option (List ℝ)) :
    Except String Db :=
  match embedding with
  | none => .ok db
  | some v =>
    if v.length ≠ EMBEDDING_DIM then .ok db
    else
      match db.annTable with
      | none => .error "no_such_table_memory_vec"
      | some entries =>
          .ok { db with annTable := some ((entries.filter (fun e => e.id ≠ id)) ++ [⟨id, scope, v⟩]) }

/-- `deleteEmbedding` of src/rag/ann.ts. -/
def deleteEmbedding (db : Db) (id : String) : Except String Db :=
  match db.annTable with
  | none => .error "no_such_table_memory_vec"
  | some entries => .ok { db with annTable := some (entries.filter (fun e => e.id ≠ id)) }

/-- Modelled from the spec: the distance metric of the external
sqlite-vec `vec0` k-NN query (`searchNearest`); the spec only fixes
that matches come back ordered by ascending distance, and sqlite-vec
uses Euclidean (L2) distance by default. -/
noncomputable def l2dist (a b : List ℝ) : ℝ :=
  Real.sqrt (sumSq (List.zipWith (· - ·) a b))

/-- `searchNearest` of src/rag/ann.ts: empty result for a
wrong-dimension query or nonpositive limit (checked before any
statement is prepared), otherwise the k nearest entries of
`memory_vec`, scope-filtered, ordered by ascending distance. The
k-NN ordering itself is the external sqlite-vec query, modelled from
the spec as a stable sort by `l2dist`. -/
noncomputable def searchNearest (db : Db) (queryEmbedding : List ℝ) (limit : Nat)
    (scope : Option String) : Except String (List (String × ℝ)) :=
  if queryEmbedding.length ≠ EMBEDDING_DIM ∨ limit = 0 then .ok []
  else
    match db.annTable with
    | none => .error "no_such_table_memory_vec"
    | some entries =>
        let filtered :=
          match scope with
          | some s => entries.filter (fun (e : AnnEntry) => e.scope = s)
          | none => entries
        let sorted :=
          filtered.mergeSort
            (fun a b => decide (l2dist queryEmbedding a.vec ≤ l2dist queryEmbedding b.vec))
        .ok ((sorted.take limit).map (fun (e : AnnEntry) => (e.id, l2dist queryEmbedding e.vec)))

/-- `searchVectorIds` of src/rag/db.ts: empty when the ANN status is
disabled, ids of the nearest entries otherwise, with any thrown error
swallowed into an empty result. -/
noncomputable def searchVectorIds (db : Db) (queryEmbedding : List ℝ) (limit : Nat)
    (scope : Option String) : List String :=
  if db.annEnabled = false then []
  else
    match searchNearest db queryEmbedding limit scope with
    | .ok hits => hits.map Prod.fst
    | .error _ => []

/-- `loadMemoriesByIds` of src/rag/db.ts: look up each id in order,
dropping the ones that do not resolve. -/
def loadMemoriesByIds (db : Db) (ids : List String) : List MemoryRecord :=
  ids.filterMap (fun i => db.records.find? (fun r => r.id = i))

/-- `searchKindNeighbors` of src/rag/db.ts: the (kind, score) pairs of
the ANN neighbors, score `1/(1+max(0,distance))`; empty when the ANN
status is disabled or on error. -/
noncomputable def searchKindNeighbors (db : Db) (queryEmbedding : List ℝ) (limit : Nat)
    (scope : Option String) : List (String × ℝ) :=
  if db.annEnabled = false then []
  else
    match searchNearest db queryEmbedding limit scope with
    | .error _ => []
    | .ok hits =>
        if hits = [] then []
        else
          let candidates := loadMemoriesByIds db (hits.map Prod.fst)
          hits.filterMap (fun hit =>
            ((candidates.find? (fun c => c.id = hit.1)).map (·.kind)).map
              (fun kind => (kind, 1 / (1 + max 0 hit.2))))

/-- The best-candidate fold of `findSemanticDuplicate`: skip
candidates without a stored embedding, keep the strictly best exact
cosine similarity, starting from `bestScore = -1`. -/
noncomputable def dupFoldStep (embedding : List ℝ) :
    Option MemoryRecord × ℝ → MemoryRecord → Option MemoryRecord × ℝ
  | (best, bestScore), candidate =>
      match candidate.embedding with
      | none => (best, bestScore)
      | some ce =>
          if cosine embedding ce > bestScore then (some candidate, cosine embedding ce)
          else (best, bestScore)

/-- `findSemanticDuplicate` of src/rag/db.ts (dedup probe at
`DEDUP_CANDIDATE_LIMIT = 12` ANN candidates in the same scope). -/
noncomputable def findSemanticDuplicate (db : Db) (embedding : List ℝ) (scope : String)
    (threshold : ℝ) : Option MemoryRecord :=
  if embedding.length = 0 then none
  else
    let vectorIds := searchVectorIds db embedding 12 (some scope)
    let candidates := loadMemoriesByIds db vectorIds
    let r := candidates.foldl (dupFoldStep embedding) (none, -1)
    if r.2 ≥ threshold then r.1 else none

/-- Transaction body of `insertMemoryRows`: insert each record (the
primary key makes a duplicate id a constraint error), then its ANN
entry via the unguarded `upsertEmbedding` call (whose error aborts the
transaction), then its FTS entry wrapped in try/catch (best-effort,
skipped when the FTS table is missing). -/
def insertRowsGo : Db → List MemoryRecord → Except String Db
  | db, [] => .ok db
  | db, r :: rest =>
      if db.records.any (fun x => x.id = r.id) then .error "unique_constraint_memory_records_id"
      else
        let db1 : Db := { db with records := db.records ++ [r] }
        match upsertEmbedding db1 r.id r.scope r.embedding with
        | .error e => .error e
        | .ok db2 =>
            let db3 : Db := { db2 with fts := db2.fts.map (fun t => t ++ [(r.id, r.content)]) }
            insertRowsGo db3 rest

/-- `insertMemoryRows` of src/rag/db.ts: a single BEGIN/COMMIT
transaction; any error rolls everything back (the caller keeps the
original store) and is rethrown. -/
def insertMemoryRows (db : Db) (rows : List MemoryRecord) : Except String Db :=
  if rows.length = 0 then .ok db else insertRowsGo db rows

/-- The `incoming` argument of `mergeIntoExistingMemory`. Its
TypeScript type (`Pick<MemoryRecord, ... | "kind">`) requires `kind`,
but the only call site — the dedup branch of `remember` in
src/rag/index.ts — omits the field, so at runtime the bound value is
`undefined`; `kind` is therefore an `Option` here. -/
structure MergeIncoming where
  content : String
  kind : Option String
  importance : ℝ
  updatedAt : ℤ
  embedding : Option (List ℝ)
  tokenCount : Nat

/-- `mergeIntoExistingMemory` of src/rag/db.ts. The UPDATE binds
`incoming.kind`; binding `undefined` is rejected by better-sqlite3
(and the `kind` column is NOT NULL), so a missing `kind` throws and
nothing is merged. With a present `kind` the row is overwritten with
`importance ← min(1, 0.9·old + 0.1·new)` and
`validityScore ← min(1, old + 0.01)`, the ANN vector is replaced and
the FTS entry is deleted and reinserted (best-effort). -/
def mergeIntoExistingMemory (db : Db) (existingId : String) (incoming : MergeIncoming) :
    Except String Db :=
  match incoming.kind with
  | none => .error "sqlite_cannot_bind_undefined"
  | some k =>
      let db1 : Db :=
        { db with
          records := db.records.map (fun r =>
            if r.id = existingId then
              { r with
                content := incoming.content
                kind := k
                embedding := incoming.embedding
                importance := min 1 (r.importance * 0.9 + incoming.importance * 0.1)
                tokenCount := incoming.tokenCount
                updatedAt := incoming.updatedAt
                validityScore := min 1 (r.validityScore + 0.01) }
            else r) }
      let scope := (((db1.records.find? (fun r => r.id = existingId)).map (·.scope)).getD "global")
      match upsertEmbedding db1 existingId scope incoming.embedding with
      | .error e => .error e
      | .ok db2 =>
          .ok { db2 with
                fts := db2.fts.map (fun t =>
                  (t.filter (fun p => p.1 ≠ existingId)) ++ [(existingId, incoming.content)]) }

/-! ## src/rag/index.ts -/

/-- The injected capabilities consumed by the engine facade: the
tokenizer pair, the embedding model, the clock and the UUID supply
(the n-th `randomUUID()` result of a `remember` call; index 0 is the
parent id and index `i + 1` the id minted for chunk `i`). -/
structure Env where
  tokenize : String → List Nat
  decode : List Nat → String
  embed : String → List ℝ
  now : ℤ
  uuid : Nat → String

/-- The options object of `remember`. -/
structure RememberOptions where
  kind : Option String := none
  scope : Option String := none
  importance : Option ℝ := none
  validityScore : Option ℝ := none
  isNegative : Option Bool := none

/-- The fresh row built for chunk `p.1` with content `p.2` by the
non-duplicate branch of the `remember` loop: `chunkIndex` is the loop
index and the stored kind is `options?.kind ?? "knowledge"` (the raw
option string, stored verbatim). -/
noncomputable def rememberRow (env : Env) (parentId scope : String)
    (opts : RememberOptions) (embeddings : List (List ℝ)) (p : Nat × String) :
    MemoryRecord :=
  { id := env.uuid (p.1 + 1)
    parentId := parentId
    chunkIndex := p.1
    content := p.2
    kind := opts.kind.getD "knowledge"
    scope := scope
    importance := opts.importance.getD 0.5
    tokenCount := estimateTokenCount env.tokenize p.2
    recallCount := 0
    lastRecalledAt := none
    validityScore := clamp01 (opts.validityScore.getD 1)
    isNegative := opts.isNegative.getD false
    createdAt := env.now
    updatedAt := env.now
    embedding := embeddings[p.1]? }

/-- The per-chunk `for` loop of `remember`: probe for a semantic
duplicate (threshold 0.95) when the chunk has an embedding, merge into
it on a hit, otherwise build a fresh row with the loop index as
`chunkIndex` and the stored kind `options?.kind ?? "knowledge"`. -/
noncomputable def rememberLoop (env : Env) (parentId scope : String)
    (opts : RememberOptions) (embeddings : List (List ℝ)) :
    Db → List MemoryRecord → Option MemoryRecord → List (Nat × String) →
    Except String (Db × List MemoryRecord × Option MemoryRecord)
  | db, rows, firstExisting, [] => .ok (db, rows, firstExisting)
  | db, rows, firstExisting, (index, chunk) :: rest =>
      let embedding : Option (List ℝ) := embeddings[index]?
      let tokenCount := estimateTokenCount env.tokenize chunk
      match embedding.bind (fun e => findSemanticDuplicate db e scope 0.95) with
      | some duplicate =>
          match
            mergeIntoExistingMemory db duplicate.id
              { content := chunk
                kind := none
                importance := opts.importance.getD 0.5
                updatedAt := env.now
                embedding := embedding
                tokenCount := tokenCount }
          with
          | .error e => .error e
          | .ok db1 =>
              rememberLoop env parentId scope opts embeddings db1 rows
                (firstExisting <|> some duplicate) rest
      | none =>
          rememberLoop env parentId scope opts embeddings db
            (rows ++ [rememberRow env parentId scope opts embeddings (index, chunk)])
            firstExisting rest

/-- `remember` of src/rag/index.ts. -/
noncomputable def remember (env : Env) (db : Db) (content : String)
    (opts : RememberOptions) : Except String (MemoryRecord × Db) :=
  let normalized := jsTrim content
  if normalized = "" then .error "empty_memory_content"
  else
    let parentId := env.uuid 0
    let scope := opts.scope.getD "global"
    let chunks := chunkText env.tokenize env.decode normalized 220 40
    if chunks = [] then .error "empty_memory_chunks"
    else
      let embeddings := chunks.map env.embed
      match rememberLoop env parentId scope opts embeddings db [] none chunks.enum with
      | .error e => .error e
      | .ok (db1, rows, firstExisting) =>
          match insertMemoryRows db1 rows with
          | .error e => .error e
          | .ok db2 =>
              match rows, firstExisting with
              | r :: _, _ => .ok (r, db2)
              | [], some r => .ok (r, db2)
              | [], none => .error "remember_noop"

/-! ## Claim C9: totality of `cosine` -/

/-- C9: `cosine` is total and returns 0 (rather than failing or
producing NaN) for vectors of unequal length, for empty vectors and
for vectors of zero norm (`‖v‖² = 0`). -/
theorem c9_cosine_total :
    (∀ a b : List ℝ, a.length = 0 ∨ b.length = 0 ∨ a.length ≠ b.length → cosine a b = 0)
    ∧ (∀ a b : List ℝ, sumSq a = 0 ∨ sumSq b = 0 → cosine a b = 0) := by
  constructor
  · intro a b h
    simp only [cosine, if_pos h]
  · intro a b h
    by_cases hlen : a.length = 0 ∨ b.length = 0 ∨ a.length ≠ b.length
    · simp only [cosine, if_pos hlen]
    · simp only [cosine, if_neg hlen, if_pos h]

/-- Concrete instances of C9: mismatched lengths, an empty vector and
a zero-norm vector all map to 0. -/
theorem c9_witness :
    cosine [] [(1 : ℝ)] = 0 ∧ cosine [(1 : ℝ), 0] [(1 : ℝ)] = 0 ∧
      cosine [(0 : ℝ), 0] [(1 : ℝ), 1] = 0 := by
  refine ⟨c9_cosine_total.1 [] [(1 : ℝ)] (Or.inl rfl),
    c9_cosine_total.1 [(1 : ℝ), 0] [(1 : ℝ)] (Or.inr (Or.inr (by decide))),
    c9_cosine_total.2 [(0 : ℝ), 0] [(1 : ℝ), 1] (Or.inl (by simp [sumSq]))⟩

/-! ## Claim C3: the scoring formula and its monotonicity -/

theorem lexicalScore_nonneg (query content : String) : 0 ≤ lexicalScore query content := by
  simp only [lexicalScore]
  split_ifs
  · exact le_rfl
  · positivity
  · positivity

theorem recencyScore_nonneg (now updatedAt : ℤ) : 0 ≤ recencyScore now updatedAt := by
  unfold recencyScore
  refine le_min zero_le_one (div_nonneg (by norm_num) ?_)
  exact le_trans zero_le_one (le_max_left _ _)

theorem clamp01_nonneg (x : ℝ) : 0 ≤ clamp01 x := le_max_left 0 _

theorem clamp01_mono {a b : ℝ} (h : a ≤ b) : clamp01 a ≤ clamp01 b :=
  max_le_max le_rfl (min_le_min le_rfl h)

theorem effectiveImportance_nonneg (now : ℤ) (importance : ℝ) (updatedAt : ℤ) :
    0 ≤ effectiveImportance now importance updatedAt := by
  unfold effectiveImportance
  exact mul_nonneg (clamp01_nonneg _) (Real.rpow_nonneg (by norm_num) _)

/-- The weighted base of `scoreOne` before the validity and
negativity adjustments, in terms of the partial scores it carries. -/
noncomputable def scoreBase (now : ℤ) (query : String) (qe : Option (List ℝ))
    (hits : List String) (m : MemoryRecord) : ℝ :=
  0.6 * (scoreOne now query qe hits m).vectorScore
    + 0.2 * (scoreOne now query qe hits m).lexicalScore
    + 0.1 * (scoreOne now query qe hits m).importanceScore
    + 0.1 * (scoreOne now query qe hits m).recencyScore

theorem scoreOne_score_eq (now : ℤ) (query : String) (qe : Option (List ℝ))
    (hits : List String) (m : MemoryRecord) :
    (scoreOne now query qe hits m).score
      = max 0 (scoreBase now query qe hits m * clamp01 m.validityScore
          - (if m.isNegative then 0.25 else 0)) := rfl

theorem scoreBase_update_validity (now : ℤ) (query : String) (qe : Option (List ℝ))
    (hits : List String) (m : MemoryRecord) (v : ℝ) :
    scoreBase now query qe hits { m with validityScore := v }
      = scoreBase now query qe hits m := rfl

theorem scoreBase_update_negative (now : ℤ) (query : String) (qe : Option (List ℝ))
    (hits : List String) (m : MemoryRecord) (b : Bool) :
    scoreBase now query qe hits { m with isNegative := b }
      = scoreBase now query qe hits m := rfl

theorem scoreBase_nonneg (now : ℤ) (query : String) (qe : Option (List ℝ))
    (hits : List String) (m : MemoryRecord) :
    0 ≤ scoreBase now query qe hits m := by
  have hveq : (scoreOne now query qe hits m).vectorScore
      = match qe, m.embedding with
        | some qev, some me => max 0 (cosine qev me)
        | _, _ => (0 : ℝ) := rfl
  have hv : 0 ≤ (scoreOne now query qe hits m).vectorScore := by
    rw [hveq]
    cases qe <;> cases m.embedding
    · exact le_rfl
    · exact le_rfl
    · exact le_rfl
    · exact le_max_left _ _
  have hleq : (scoreOne now query qe hits m).lexicalScore
      = if hits.contains m.id then min 1 (lexicalScore query m.content + 0.4)
        else lexicalScore query m.content := rfl
  have hl : 0 ≤ (scoreOne now query qe hits m).lexicalScore := by
    rw [hleq]
    split
    · exact le_min zero_le_one (add_nonneg (lexicalScore_nonneg _ _) (by norm_num))
    · exact lexicalScore_nonneg _ _
  have hi : 0 ≤ (scoreOne now query qe hits m).importanceScore :=
    effectiveImportance_nonneg _ _ _
  have hr : 0 ≤ (scoreOne now query qe hits m).recencyScore := recencyScore_nonneg _ _
  unfold scoreBase
  nlinarith

/-- C3: every scored candidate's final score is
`max 0 (base · clamp01(validityScore) − (isNegative ? 0.25 : 0))` with
`base` the 0.6/0.2/0.1/0.1 combination of its partial scores; the
final score is monotone in `validityScore`, and turning on
`isNegative` subtracts exactly 0.25 floored at 0, a strict decrease
whenever the non-negative score was positive. -/
theorem c3_score_formula_and_monotonicity :
    (∀ (now : ℤ) (q : String) (qe : Option (List ℝ)) (mems : List MemoryRecord)
        (hits : List String) (s : ScoredMemory), s ∈ scoreCandidates now q qe mems hits →
        s.score = max 0 ((0.6 * s.vectorScore + 0.2 * s.lexicalScore
          + 0.1 * s.importanceScore + 0.1 * s.recencyScore) * clamp01 s.validityScore
          - (if s.isNegative then 0.25 else 0)))
    ∧ (∀ (now : ℤ) (q : String) (qe : Option (List ℝ)) (hits : List String)
        (m : MemoryRecord) (v₁ v₂ : ℝ), v₁ ≤ v₂ →
        (scoreOne now q qe hits { m with validityScore := v₁ }).score
          ≤ (scoreOne now q qe hits { m with validityScore := v₂ }).score)
    ∧ (∀ (now : ℤ) (q : String) (qe : Option (List ℝ)) (hits : List String)
        (m : MemoryRecord),
        (scoreOne now q qe hits { m with isNegative := true }).score
            = max 0 ((scoreOne now q qe hits { m with isNegative := false }).score - 0.25)
          ∧ (0 < (scoreOne now q qe hits { m with isNegative := false }).score →
            (scoreOne now q qe hits { m with isNegative := true }).score
              < (scoreOne now q qe hits { m with isNegative := false }).score)) := by
  refine ⟨?_, ?_, ?_⟩
  · intro now q qe mems hits s hs
    rcases List.mem_map.1 hs with ⟨m, _, rfl⟩
    rfl
  · intro now q qe hits m v₁ v₂ h
    rw [scoreOne_score_eq, scoreOne_score_eq, scoreBase_update_validity,
      scoreBase_update_validity]
    refine max_le_max le_rfl (sub_le_sub_right ?_ _)
    exact mul_le_mul_of_nonneg_left (clamp01_mono h) (scoreBase_nonneg now q qe hits m)
  · intro now q qe hits m
    have hB : 0 ≤ scoreBase now q qe hits m * clamp01 m.validityScore :=
      mul_nonneg (scoreBase_nonneg now q qe hits m) (clamp01_nonneg _)
    have hfalse : (scoreOne now q qe hits { m with isNegative := false }).score
        = scoreBase now q qe hits m * clamp01 m.validityScore := by
      rw [scoreOne_score_eq, scoreBase_update_negative]
      simp only [Bool.false_eq_true, if_false, sub_zero]
      exact max_eq_right hB
    have htrue : (scoreOne now q qe hits { m with isNegative := true }).score
        = max 0 (scoreBase now q qe hits m * clamp01 m.validityScore - 0.25) := by
      rw [scoreOne_score_eq, scoreBase_update_negative]
      simp only [if_true]
    constructor
    · rw [htrue, hfalse]
    · intro hpos
      rw [hfalse] at hpos ⊢
      rw [htrue]
      exact max_lt hpos (by linarith)

/-- A concrete record used to instantiate the scoring claims: no
embedding, empty content, default importance and validity, updated at
the scoring instant. -/
noncomputable def m0 : MemoryRecord :=
  { id := "a"
    parentId := "a"
    chunkIndex := 0
    content := ""
    kind := "knowledge"
    scope := "global"
    importance := 0.5
    tokenCount := 0
    recallCount := 0
    lastRecalledAt := none
    validityScore := 1
    isNegative := false
    createdAt := 0
    updatedAt := 0
    embedding := none }

theorem scoreOne_m0_false_pos :
    0 < (scoreOne 0 "" none [] { m0 with isNegative := false }).score := by
  have h1 : lexicalScore "" "" = 0 := by
    simp [lexicalScore, lexTokenize, splitWsAux]
  have h2 : recencyScore 0 0 = 1 := by
    simp only [recencyScore]
    norm_num
  have h3 : effectiveImportance 0 0.5 0 = 0.5 := by
    simp only [effectiveImportance, clamp01]
    norm_num [max_self, Real.rpow_zero]
  rw [scoreOne_score_eq]
  have hbase : scoreBase 0 "" none [] { m0 with isNegative := false } = 0.15 := by
    unfold scoreBase
    have hveq : (scoreOne 0 "" none [] { m0 with isNegative := false }).vectorScore = 0 := rfl
    have hleq : (scoreOne 0 "" none [] { m0 with isNegative := false }).lexicalScore
        = lexicalScore "" "" := by
      simp [scoreOne, m0]
    have hieq : (scoreOne 0 "" none [] { m0 with isNegative := false }).importanceScore
        = effectiveImportance 0 0.5 0 := rfl
    have hreq : (scoreOne 0 "" none [] { m0 with isNegative := false }).recencyScore
        = recencyScore 0 0 := rfl
    rw [hveq, hleq, hieq, hreq, h1, h2, h3]
    norm_num
  rw [hbase]
  have hval : ({ m0 with isNegative := false } : MemoryRecord).validityScore = 1 := rfl
  have hneg : ({ m0 with isNegative := false } : MemoryRecord).isNegative = false := rfl
  rw [hval, hneg]
  simp only [Bool.false_eq_true, if_false, sub_zero, clamp01]
  norm_num

/-- Concrete instance of C3: raising validity from 0.3 to 0.7 does
not lower the score, and flipping `isNegative` on strictly lowers the
(positive) score of a concrete record. -/
theorem c3_witness :
    (scoreOne 0 "" none [] { m0 with validityScore := 0.3 }).score
        ≤ (scoreOne 0 "" none [] { m0 with validityScore := 0.7 }).score
      ∧ (scoreOne 0 "" none [] { m0 with isNegative := true }).score
        < (scoreOne 0 "" none [] { m0 with isNegative := false }).score :=
  ⟨c3_score_formula_and_monotonicity.2.1 0 "" none [] m0 0.3 0.7 (by norm_num),
    (c3_score_formula_and_monotonicity.2.2 0 "" none [] m0).2 scoreOne_m0_false_pos⟩

/-! ## Claim C5: classifier totality -/

theorem mem_allKinds (k : MemoryKind) :
    k ∈ [MemoryKind.identity, .task, .knowledge, .reference, .note, .unclassified] := by
  cases k <;> simp

theorem classifiable_ne_unclassified {k : MemoryKind} (h : k ∈ classifiableKinds) :
    k ≠ .unclassified := by
  simp only [classifiableKinds, List.mem_cons, List.mem_singleton] at h
  rcases h with rfl | rfl | rfl | rfl | rfl | h
  · decide
  · decide
  · decide
  · decide
  · decide
  · exact absurd h (List.not_mem_nil _)

theorem combinedFold_mem (c : MemoryKind → ℝ) :
    ∀ (l : List MemoryKind) (acc : MemoryKind × Option ℝ), acc.1 ∈ classifiableKinds →
      (∀ k ∈ l, k ∈ classifiableKinds) → (l.foldl (combinedFoldStep c) acc).1 ∈ classifiableKinds
  | [], acc, hacc, _ => hacc
  | k :: l, acc, hacc, hl => by
      have hk : k ∈ classifiableKinds := hl k (List.mem_cons_self _ _)
      have hstep : (combinedFoldStep c acc k).1 ∈ classifiableKinds := by
        rcases acc with ⟨bk, _ | bv⟩
        · exact hk
        · simp only [combinedFoldStep]
          split
          · exact hk
          · exact hacc
      exact combinedFold_mem c l _ hstep (fun x hx => hl x (List.mem_cons_of_mem _ hx))

/-- C5: the classifier always returns one of the six enum kinds, and
it returns `unclassified` exactly when the embedding is empty (in
which case the confidence is 0) or the returned confidence is below
the 0.28 fallback threshold. -/
theorem c5_classifier_totality (emb : List ℝ) (protos learned : MemoryKind → List (List ℝ))
    (neighbors : List (String × ℝ)) :
    (inferKindByEmbedding emb protos learned neighbors).1.1
        ∈ [MemoryKind.identity, .task, .knowledge, .reference, .note, .unclassified]
      ∧ ((inferKindByEmbedding emb protos learned neighbors).1.1 = .unclassified
        ↔ emb = [] ∨ (inferKindByEmbedding emb protos learned neighbors).1.2 < 0.28)
      ∧ (emb = [] → (inferKindByEmbedding emb protos learned neighbors).1.2 = 0) := by
  by_cases hemb : emb.length = 0
  · have hnil : emb = [] := List.length_eq_zero.mp hemb
    have hres : inferKindByEmbedding emb protos learned neighbors
        = ((.unclassified, 0), learned) := by
      rw [inferKindByEmbedding, if_pos hemb]
    rw [hres]
    exact ⟨mem_allKinds _, iff_of_true rfl (Or.inl hnil), fun _ => rfl⟩
  · have hne : emb ≠ [] := fun h => hemb (by simp [h])
    obtain ⟨t0, t1, rest, hs5⟩ : ∃ t0 t1 rest,
        classifiableKinds.mergeSort (fun a b =>
          decide (prototypeScore emb b protos learned ≤ prototypeScore emb a protos learned))
          = t0 :: t1 :: rest := by
      rcases hl : classifiableKinds.mergeSort (fun a b =>
          decide (prototypeScore emb b protos learned ≤ prototypeScore emb a protos learned))
        with _ | ⟨a, _ | ⟨b, t⟩⟩
      · have := congrArg List.length hl
        simp [classifiableKinds] at this
      · have := congrArg List.length hl
        simp [classifiableKinds] at this
      · exact ⟨a, b, t, rfl⟩
    have ht0 : t0 ∈ classifiableKinds := by
      have h1 : t0 ∈ t0 :: t1 :: rest := List.mem_cons_self _ _
      rw [← hs5] at h1
      exact List.mem_mergeSort.mp h1
    by_cases hanchor : prototypeScore emb t0 protos learned ≥ 0.52
        ∧ prototypeScore emb t0 protos learned - prototypeScore emb t1 protos learned ≥ 0.045
    · have hres : inferKindByEmbedding emb protos learned neighbors
          = ((t0, prototypeScore emb t0 protos learned),
            if prototypeScore emb t0 protos learned > 0.93 then pushLearned learned t0 emb
            else learned) := by
        rw [inferKindByEmbedding, if_neg hemb]
        simp only [hs5]
        rw [if_pos hanchor]
      rw [hres]
      refine ⟨mem_allKinds _, ?_, fun h => absurd h hne⟩
      refine iff_of_false (classifiable_ne_unclassified ht0) ?_
      rintro (h | h)
      · exact hne h
      · have h1 := hanchor.1
        simp only at h
        linarith
    · set F := List.foldl
        (combinedFoldStep fun k =>
          0.9 * prototypeScore emb k protos learned + 0.1 *
            (if prototypeScore emb k protos learned ≥ 0.35 then densityScore neighbors k
            else densityScore neighbors k * 0.25))
        (MemoryKind.knowledge, none) classifiableKinds with hF
      have hbmem : F.1 ∈ classifiableKinds := by
        rw [hF]
        exact combinedFold_mem _ _ _ (by simp [classifiableKinds]) (fun k hk => hk)
      have hres : inferKindByEmbedding emb protos learned neighbors
          = ((if F.2.getD 0 < 0.28 then MemoryKind.unclassified else F.1, F.2.getD 0),
            if (if F.2.getD 0 < 0.28 then MemoryKind.unclassified else F.1)
                ≠ MemoryKind.unclassified ∧ F.2.getD 0 > 0.93 then
              pushLearned learned
                (if F.2.getD 0 < 0.28 then MemoryKind.unclassified else F.1) emb
            else learned) := by
        rw [inferKindByEmbedding, if_neg hemb]
        simp only [hs5]
        rw [if_neg hanchor]
      rw [hres]
      refine ⟨mem_allKinds _, ?_, fun h => absurd h hne⟩
      by_cases hconf : F.2.getD 0 < 0.28
      · rw [if_pos hconf]
        exact iff_of_true rfl (Or.inr hconf)
      · rw [if_neg hconf]
        exact iff_of_false (classifiable_ne_unclassified hbmem)
          (fun h => h.elim hne hconf)

/-- Concrete instance of C5: the empty embedding classifies as
`unclassified` with confidence 0. -/
theorem c5_witness :
    (inferKindByEmbedding [] (fun _ => []) (fun _ => []) []).1.2 = 0
      ∧ (inferKindByEmbedding [] (fun _ => []) (fun _ => []) []).1.1 = .unclassified :=
  ⟨(c5_classifier_totality [] (fun _ => []) (fun _ => []) []).2.2 rfl,
    (c5_classifier_totality [] (fun _ => []) (fun _ => []) []).2.1.mpr (Or.inl rfl)⟩

/-! ## Claim C6: the chunker -/

theorem chunkWindows_cover (chunk step : Nat) (hstep : max 1 step ≤ chunk) :
    ∀ (d count start : Nat), count - start ≤ d → ∀ i, start ≤ i → i < count →
      ∃ w ∈ chunkWindowsFrom count chunk step start, w.1 ≤ i ∧ i < w.2 := by
  intro d
  induction d with
  | zero => intro count start hd i hsi hic; omega
  | succ n ih =>
    intro count start hd i hsi hic
    have hlt : start < count := lt_of_le_of_lt hsi hic
    rw [chunkWindowsFrom, dif_pos hlt]
    by_cases hend : count ≤ start + chunk
    · rw [if_pos hend]
      refine ⟨(start, min count (start + chunk)), List.mem_singleton.mpr rfl, hsi, ?_⟩
      have hm : min count (start + chunk) = count := min_eq_left hend
      rw [hm]
      exact hic
    · rw [if_neg hend]
      push_neg at hend
      by_cases hi : i < start + chunk
      · refine ⟨(start, min count (start + chunk)), List.mem_cons_self _ _, hsi, ?_⟩
        have hm : min count (start + chunk) = start + chunk := min_eq_right (le_of_lt hend)
        rw [hm]
        exact hi
      · obtain ⟨w, hw, h1, h2⟩ := ih count (start + max 1 step) (by omega) i (by omega) hic
        exact ⟨w, List.mem_cons_of_mem _ hw, h1, h2⟩

theorem chunkWindows_chain (chunk step : Nat) (hstep : max 1 step ≤ chunk) :
    ∀ (d count start : Nat), count - start ≤ d →
      List.Chain'
        (fun w1 w2 => (Finset.Ico w1.1 w1.2 ∩ Finset.Ico w2.1 w2.2).card = chunk - max 1 step)
        (chunkWindowsFrom count chunk step start) := by
  intro d
  induction d with
  | zero =>
    intro count start hd
    rw [chunkWindowsFrom, dif_neg (by omega)]
    exact List.chain'_nil
  | succ n ih =>
    intro count start hd
    by_cases hlt : start < count
    case neg =>
      rw [chunkWindowsFrom, dif_neg hlt]
      exact List.chain'_nil
    case pos =>
      rw [chunkWindowsFrom, dif_pos hlt]
      by_cases hend : count ≤ start + chunk
      · rw [if_pos hend]
        exact List.chain'_singleton _
      · rw [if_neg hend]
        push_neg at hend
        have hnext : start + max 1 step < count := by omega
        refine List.chain'_cons'.mpr ⟨?_, ih count (start + max 1 step) (by omega)⟩
        intro y hy
        rw [chunkWindowsFrom, dif_pos hnext] at hy
        have hy2 : y = (start + max 1 step, min count (start + max 1 step + chunk)) := by
          by_cases h2 : count ≤ start + max 1 step + chunk
          · rw [if_pos h2] at hy
            have h3 : (start + max 1 step, min count (start + max 1 step + chunk)) = y := by
              simpa using hy
            exact h3.symm
          · rw [if_neg h2] at hy
            have h3 : (start + max 1 step, min count (start + max 1 step + chunk)) = y := by
              simpa using hy
            exact h3.symm
        subst hy2
        have hm1 : min count (start + chunk) = start + chunk := min_eq_right (le_of_lt hend)
        rw [hm1, Finset.Ico_inter_Ico, Nat.card_Ico]
        have hmax : max start (start + max 1 step) = start + max 1 step :=
          max_eq_right (by omega)
        have hmin : min (start + chunk)
            (min count (start + max 1 step + chunk)) = start + chunk := by
          have h3 : start + chunk ≤ count := le_of_lt hend
          have h4 : start + chunk ≤ start + max 1 step + chunk := by omega
          exact min_eq_left (le_min h3 h4)
        rw [hmax, hmin]
        omega

/-- C6: `chunkText` normalizes by trimming and collapsing whitespace;
a whitespace-only input yields `[]`; a tokenization of at most 220
tokens yields exactly `[normalized]`; a longer tokenization yields
the detokenized sliding windows (empty detokenizations skipped) whose
token windows advance by stride 180 = 220 − 40, jointly cover every
token index, and consecutively share exactly 40 token indices. -/
theorem c6_chunker (tok : String → List Nat) (dec : List Nat → String) (text : String) :
    (normalizeWs text = "" → chunkText tok dec text 220 40 = [])
    ∧ ((tok (normalizeWs text)).length ≠ 0 → (tok (normalizeWs text)).length ≤ 220 →
        normalizeWs text ≠ "" → chunkText tok dec text 220 40 = [normalizeWs text])
    ∧ (normalizeWs text ≠ "" → 220 < (tok (normalizeWs text)).length →
        chunkText tok dec text 220 40
            = (chunkWindowsFrom (tok (normalizeWs text)).length 220 180 0).filterMap (fun w =>
                let textChunk := jsTrim (dec (((tok (normalizeWs text)).drop w.1).take (w.2 - w.1)))
                if textChunk = "" then none else some textChunk)
          ∧ (∀ i, i < (tok (normalizeWs text)).length →
              ∃ w ∈ chunkWindowsFrom (tok (normalizeWs text)).length 220 180 0,
                w.1 ≤ i ∧ i < w.2)
          ∧ List.Chain'
              (fun w1 w2 => (Finset.Ico w1.1 w1.2 ∩ Finset.Ico w2.1 w2.2).card = 40)
              (chunkWindowsFrom (tok (normalizeWs text)).length 220 180 0)) := by
  refine ⟨?_, ?_, ?_⟩
  · intro h
    rw [chunkText, if_pos h]
  · intro h0 h220 hne
    rw [chunkText, if_neg hne, if_neg h0, if_pos h220]
  · intro hne hlong
    have h0 : ¬(tok (normalizeWs text)).length = 0 := by omega
    have h220 : ¬(tok (normalizeWs text)).length ≤ 220 := by omega
    refine ⟨?_, ?_, ?_⟩
    · rw [chunkText, if_neg hne, if_neg h0, if_neg h220]
    · intro i hi
      exact chunkWindows_cover 220 180 (by norm_num)
        (tok (normalizeWs text)).length (tok (normalizeWs text)).length 0 (by omega) i
        (Nat.zero_le i) hi
    · have h := chunkWindows_chain 220 180 (by norm_num)
        (tok (normalizeWs text)).length (tok (normalizeWs text)).length 0 (by omega)
      simpa using h

/-- A toy tokenizer for concrete chunker runs: one token id per
character of the input. -/
def tokW : String → List Nat := fun s => List.range s.length

/-- A toy tokenizer producing 500 tokens for any input. -/
def tok500 : String → List Nat := fun _ => List.range 500

/-- A toy detokenizer. -/
def decW : List Nat → String := fun _ => "x"

/-- Concrete instances of C6: a whitespace-only input chunks to `[]`,
a short input chunks to the single normalized string, and a 500-token
tokenization has covering windows. -/
theorem c6_witness :
    chunkText tokW decW "   " 220 40 = []
      ∧ chunkText tokW decW "hi there" 220 40 = ["hi there"]
      ∧ (∀ i, i < (tok500 (normalizeWs "abc")).length →
          ∃ w ∈ chunkWindowsFrom (tok500 (normalizeWs "abc")).length 220 180 0,
            w.1 ≤ i ∧ i < w.2) :=
  ⟨(c6_chunker tokW decW "   ").1 (by decide),
    (c6_chunker tokW decW "hi there").2.1 (by decide) (by decide) (by decide),
    ((c6_chunker tok500 decW "abc").2.2 (by decide)
      (by norm_num [tok500])).2.1⟩

/-! ## Claim C4: the MMR reranker contract -/

theorem bestIdxGo_lt (lambda : ℝ) (selected : List ScoredMemory) :
    ∀ (cs : List ScoredMemory) (i bi : Nat) (bv : ℝ), bi < i →
      bestIdxGo lambda selected i bi bv cs < i + cs.length
  | [], i, bi, bv, h => by simpa [bestIdxGo] using h
  | c :: cs, i, bi, bv, h => by
      rw [bestIdxGo]
      split
      · have := bestIdxGo_lt lambda selected cs (i + 1) i (mmrValue lambda selected c)
          (Nat.lt_succ_self i)
        simp only [List.length_cons]
        omega
      · have := bestIdxGo_lt lambda selected cs (i + 1) bi bv (Nat.lt_succ_of_lt h)
        simp only [List.length_cons]
        omega

theorem bestIdx_lt (lambda : ℝ) (selected : List ScoredMemory) (p : ScoredMemory)
    (ps : List ScoredMemory) : bestIdx lambda selected p ps < ps.length + 1 := by
  have := bestIdxGo_lt lambda selected ps 1 0 (mmrValue lambda selected p) Nat.one_pos
  simpa [bestIdx, Nat.add_comm] using this

theorem getD_cons_eraseIdx_perm {α : Type} (d : α) :
    ∀ (l : List α) (i : Nat), i < l.length → List.Perm (l.getD i d :: l.eraseIdx i) l
  | [], i, h => absurd h (by simp)
  | a :: l, 0, _ => by simp
  | a :: l, i + 1, h => by
      have h1 : i < l.length := by simpa using h
      have ih := getD_cons_eraseIdx_perm d l i h1
      have hswap : List.Perm (l.getD i d :: a :: l.eraseIdx i) (a :: l.getD i d :: l.eraseIdx i) :=
        List.Perm.swap a (l.getD i d) _
      simpa using hswap.trans (ih.cons a)

theorem mmrLoop_length (lambda : ℝ) :
    ∀ (fuel : Nat) (pool selected : List ScoredMemory),
      (mmrLoop lambda fuel selected pool).length = selected.length + min fuel pool.length
  | 0, pool, selected => by simp [mmrLoop]
  | fuel + 1, [], selected => by simp [mmrLoop]
  | fuel + 1, p :: ps, selected => by
      rw [mmrLoop]
      have hi : bestIdx lambda selected p ps < (p :: ps).length := by
        simpa using bestIdx_lt lambda selected p ps
      rw [mmrLoop_length lambda fuel _ _]
      have hlen := List.length_eraseIdx_of_lt hi
      simp only [List.length_append, List.length_cons, List.length_nil] at hlen ⊢
      omega

theorem mmrLoop_perm (lambda : ℝ) :
    ∀ (fuel : Nat) (pool selected : List ScoredMemory),
      ∃ rest, List.Perm (mmrLoop lambda fuel selected pool ++ rest) (selected ++ pool)
  | 0, pool, selected => ⟨pool, by simp [mmrLoop]⟩
  | fuel + 1, [], selected => ⟨[], by simp [mmrLoop]⟩
  | fuel + 1, p :: ps, selected => by
      rw [mmrLoop]
      have hi : bestIdx lambda selected p ps < (p :: ps).length := by
        simpa using bestIdx_lt lambda selected p ps
      obtain ⟨rest, hrest⟩ := mmrLoop_perm lambda fuel ((p :: ps).eraseIdx (bestIdx lambda selected p ps))
        (selected ++ [(p :: ps).getD (bestIdx lambda selected p ps) p])
      refine ⟨rest, hrest.trans ?_⟩
      have hperm := getD_cons_eraseIdx_perm p (p :: ps) (bestIdx lambda selected p ps) hi
      have heq : (selected ++ [(p :: ps).getD (bestIdx lambda selected p ps) p])
            ++ (p :: ps).eraseIdx (bestIdx lambda selected p ps)
          = selected ++ ((p :: ps).getD (bestIdx lambda selected p ps) p
              :: (p :: ps).eraseIdx (bestIdx lambda selected p ps)) := by
        simp [List.append_assoc]
      rw [heq]
      exact hperm.append_left selected

theorem presentLe_iff (a b : ScoredMemory) :
    presentLe a b = true
      ↔ (b.score < a.score ∨ (b.score = a.score ∧ (b.updatedAt < a.updatedAt
          ∨ (b.updatedAt = a.updatedAt ∧ a.id ≤ b.id)))) := by
  simp [presentLe, Bool.or_eq_true, Bool.and_eq_true, decide_eq_true_eq]

theorem presentLe_trans (a b c : ScoredMemory) (hab : presentLe a b) (hbc : presentLe b c) :
    presentLe a c = true := by
  rw [presentLe_iff] at *
  rcases hab with h1 | ⟨h1, h2⟩ <;> rcases hbc with h3 | ⟨h3, h4⟩
  · exact Or.inl (lt_trans h3 h1)
  · exact Or.inl (lt_of_le_of_lt (le_of_eq h3) h1)
  · exact Or.inl (lt_of_lt_of_le h3 (le_of_eq h1))
  · refine Or.inr ⟨h3.trans h1, ?_⟩
    rcases h2 with h2 | ⟨h2, h5⟩ <;> rcases h4 with h4 | ⟨h4, h6⟩
    · exact Or.inl (lt_trans h4 h2)
    · exact Or.inl (lt_of_le_of_lt (le_of_eq h4) h2)
    · exact Or.inl (lt_of_lt_of_le h4 (le_of_eq h2))
    · exact Or.inr ⟨h4.trans h2, le_trans h5 h6⟩

theorem presentLe_total (a b : ScoredMemory) : presentLe a b || presentLe b a := by
  rw [Bool.or_eq_true, presentLe_iff, presentLe_iff]
  rcases lt_trichotomy a.score b.score with h | h | h
  · exact Or.inr (Or.inl h)
  · rcases lt_trichotomy a.updatedAt b.updatedAt with h2 | h2 | h2
    · exact Or.inr (Or.inr ⟨h, Or.inl h2⟩)
    · rcases le_total a.id b.id with h3 | h3
      · exact Or.inl (Or.inr ⟨h.symm, Or.inr ⟨h2.symm, h3⟩⟩)
      · exact Or.inr (Or.inr ⟨h, Or.inr ⟨h2, h3⟩⟩)
    · exact Or.inl (Or.inr ⟨h.symm, Or.inl h2⟩)
  · exact Or.inl (Or.inl h)

/-- C4: `rerankWithMMR` returns exactly `min limit N` items drawn
from the input (with distinct ids when the input ids are distinct),
returns the input unchanged when `N ≤ limit`, and otherwise returns
the MMR-selected items sorted by score descending, then `updatedAt`
descending, then id ascending. -/
theorem c4_mmr_contract (cands : List ScoredMemory) (limit : Nat) (lambda : ℝ) :
    (rerankWithMMR cands limit lambda).length = min limit cands.length
    ∧ (∀ x ∈ rerankWithMMR cands limit lambda, x ∈ cands)
    ∧ ((cands.map (·.id)).Nodup → ((rerankWithMMR cands limit lambda).map (·.id)).Nodup)
    ∧ (cands.length ≤ limit → rerankWithMMR cands limit lambda = cands)
    ∧ (limit < cands.length →
        List.Pairwise (fun a b => presentLe a b = true) (rerankWithMMR cands limit lambda)) := by
  by_cases hle : cands.length ≤ limit
  · rw [rerankWithMMR, if_pos hle]
    exact ⟨(min_eq_right hle).symm, fun x hx => hx, fun h => h, fun _ => rfl,
      fun h => absurd hle (not_le.mpr h)⟩
  · rw [rerankWithMMR, if_neg hle]
    obtain ⟨rest, hrest⟩ := mmrLoop_perm lambda limit (cands.mergeSort scoreDescLe) []
    simp only [List.nil_append] at hrest
    have hpool : List.Perm (cands.mergeSort scoreDescLe) cands := List.mergeSort_perm _ _
    have hsub : List.Perm
        (mmrLoop lambda limit [] (cands.mergeSort scoreDescLe) ++ rest) cands :=
      hrest.trans hpool
    refine ⟨?_, ?_, ?_, fun h => absurd h (not_le.mpr (lt_of_not_le hle)), fun _ => ?_⟩
    · rw [List.length_mergeSort, mmrLoop_length]
      rw [List.length_mergeSort]
      simp only [List.length_nil, Nat.zero_add]
    · intro x hx
      rw [List.mem_mergeSort] at hx
      exact hsub.mem_iff.mp (List.mem_append_left rest hx)
    · intro h
      have h1 : ((mmrLoop lambda limit [] (cands.mergeSort scoreDescLe) ++ rest).map
          (·.id)).Nodup := ((hsub.map (·.id)).nodup_iff).mpr h
      rw [List.map_append] at h1
      have h2 := h1.of_append_left
      have h3 : List.Perm
          ((cands.mergeSort scoreDescLe |> mmrLoop lambda limit []).mergeSort presentLe)
          (mmrLoop lambda limit [] (cands.mergeSort scoreDescLe)) := List.mergeSort_perm _ _
      exact ((h3.map (·.id)).nodup_iff).mpr h2
    · exact List.sorted_mergeSort presentLe_trans presentLe_total _

/-- A concrete scored candidate for instantiating the MMR contract. -/
noncomputable def sm1 : ScoredMemory :=
  { id := "a", parentId := "a", chunkIndex := 0, content := "alpha", kind := "knowledge"
    scope := "global", importance := 0.5, tokenCount := 1, recallCount := 0
    lastRecalledAt := none, validityScore := 1, isNegative := false, createdAt := 0
    updatedAt := 0, embedding := none, vectorScore := 0.9, lexicalScore := 0.5
    recencyScore := 1, importanceScore := 0.5, score := 0.8 }

/-- A second concrete scored candidate. -/
noncomputable def sm2 : ScoredMemory :=
  { id := "b", parentId := "b", chunkIndex := 0, content := "beta", kind := "knowledge"
    scope := "global", importance := 0.5, tokenCount := 1, recallCount := 0
    lastRecalledAt := none, validityScore := 1, isNegative := false, createdAt := 0
    updatedAt := 0, embedding := none, vectorScore := 0.2, lexicalScore := 0.1
    recencyScore := 1, importanceScore := 0.5, score := 0.3 }

/-- Concrete instances of C4: a two-element input with distinct ids
keeps distinct ids, is returned unchanged for `limit = 5`, and is
sorted for `limit = 1`. -/
theorem c4_witness :
    ((rerankWithMMR [sm1, sm2] 5 0.75).map (·.id)).Nodup
    ∧ rerankWithMMR [sm1, sm2] 5 0.75 = [sm1, sm2]
    ∧ List.Pairwise (fun a b => presentLe a b = true) (rerankWithMMR [sm1, sm2] 1 0.75) :=
  ⟨(c4_mmr_contract [sm1, sm2] 5 0.75).2.2.1 (by simp [sm1, sm2]),
    (c4_mmr_contract [sm1, sm2] 5 0.75).2.2.2.1 (by norm_num),
    (c4_mmr_contract [sm1, sm2] 1 0.75).2.2.2.2 (by norm_num)⟩

/-! ## Claim C7: freshly created chunk indices are gapless -/

/-- The dedup-merge call of `remember` always fails: the `incoming`
record it builds has no `kind` field (see `MergeIncoming`). -/
theorem merge_undefined_kind (db : Db) (existingId content : String) (importance : ℝ)
    (updatedAt : ℤ) (embedding : Option (List ℝ)) (tokenCount : Nat) :
    mergeIntoExistingMemory db existingId
        { content := content, kind := none, importance := importance,
          updatedAt := updatedAt, embedding := embedding, tokenCount := tokenCount }
      = .error "sqlite_cannot_bind_undefined" := rfl

theorem upsertEmbedding_ok_records (db db' : Db) (id scope : String)
    (emb : Option (List ℝ)) (h : upsertEmbedding db id scope emb = .ok db') :
    db'.records = db.records := by
  rcases emb with _ | v
  · simp only [upsertEmbedding] at h
    cases h
    rfl
  · simp only [upsertEmbedding] at h
    split at h
    · cases h
      rfl
    · rcases htab : db.annTable with _ | entries <;> rw [htab] at h
      · cases h
      · cases h
        rfl

theorem insertRowsGo_ok_records :
    ∀ (rows : List MemoryRecord) (db db' : Db), insertRowsGo db rows = .ok db' →
      db'.records = db.records ++ rows
  | [], db, db', h => by
      cases h
      simp
  | r :: rest, db, db', h => by
      rw [insertRowsGo] at h
      split at h
      · cases h
      · simp only [] at h
        rcases hup : upsertEmbedding { db with records := db.records ++ [r] } r.id r.scope
            r.embedding with e | db2
        · rw [hup] at h
          cases h
        · rw [hup] at h
          have hrec2 : db2.records = db.records ++ [r] :=
            upsertEmbedding_ok_records _ _ _ _ _ hup
          have ih := insertRowsGo_ok_records rest _ _ h
          simp only at ih
          rw [ih, hrec2, List.append_assoc]
          rfl

theorem insertMemoryRows_ok_records (rows : List MemoryRecord) (db db' : Db)
    (h : insertMemoryRows db rows = .ok db') : db'.records = db.records ++ rows := by
  rw [insertMemoryRows] at h
  split at h
  · cases h
    have : rows = [] := List.length_eq_zero.mp (by assumption)
    simp [this]
  · exact insertRowsGo_ok_records rows db db' h

/-- A successful run of the `remember` loop makes no merge (any merge
throws on the missing `kind`), leaves the store untouched and returns
one fresh row per chunk, in order. -/
theorem rememberLoop_ok (env : Env) (parentId scope : String) (opts : RememberOptions)
    (embeddings : List (List ℝ)) :
    ∀ (l : List (Nat × String)) (db : Db) (rows : List MemoryRecord)
      (fe : Option MemoryRecord) (out : Db × List MemoryRecord × Option MemoryRecord),
      rememberLoop env parentId scope opts embeddings db rows fe l = .ok out →
      out = (db, rows ++ l.map (rememberRow env parentId scope opts embeddings), fe)
  | [], db, rows, fe, out, h => by
      cases h
      simp
  | (index, chunk) :: rest, db, rows, fe, out, h => by
      rw [rememberLoop] at h
      rcases hprobe : (embeddings[index]? : Option (List ℝ)).bind
          (fun e => findSemanticDuplicate db e scope 0.95) with _ | dup
      · rw [hprobe] at h
        simp only [] at h
        have ih := rememberLoop_ok env parentId scope opts embeddings rest _ _ _ _ h
        rw [ih]
        simp [rememberRow, List.append_assoc]
      · rw [hprobe] at h
        simp only [] at h
        rw [merge_undefined_kind] at h
        cases h

/-- C7: after a successful `remember` whose freshly allocated parent
id is new to the store, the rows carrying that parent id have chunk
indices exactly `0, 1, …, n−1`. This holds because a successful call
cannot have merged any chunk (the merge path always throws, see
`merge_undefined_kind`), so it creates one row per chunk with the
loop index as `chunkIndex`. -/
theorem c7_chunk_indices_gapless (env : Env) (db : Db) (content : String)
    (opts : RememberOptions) (r : MemoryRecord) (db' : Db)
    (hok : remember env db content opts = .ok (r, db'))
    (hfresh : ∀ rec ∈ db.records, rec.parentId ≠ env.uuid 0) :
    (db'.records.filter (fun rec => rec.parentId = env.uuid 0)).map (·.chunkIndex)
      = List.range (db'.records.filter (fun rec => rec.parentId = env.uuid 0)).length := by
  rw [remember] at hok
  split at hok
  · cases hok
  · simp only [] at hok
    split at hok
    · cases hok
    · rcases hloop : rememberLoop env (env.uuid 0) (opts.scope.getD "global") opts
          ((chunkText env.tokenize env.decode (jsTrim content) 220 40).map env.embed) db [] none
          (chunkText env.tokenize env.decode (jsTrim content) 220 40).enum
        with e | out
      · rw [hloop] at hok
        cases hok
      · rw [hloop] at hok
        have hout := rememberLoop_ok env _ _ opts _ _ _ _ _ _ hloop
        subst hout
        simp only [List.nil_append] at hok
        rcases hins : insertMemoryRows db
            ((chunkText env.tokenize env.decode (jsTrim content) 220 40).enum.map
              (rememberRow env (env.uuid 0) (opts.scope.getD "global") opts
                ((chunkText env.tokenize env.decode (jsTrim content) 220 40).map env.embed)))
          with e | db2
        · rw [hins] at hok
          cases hok
        · rw [hins] at hok
          have hrec : db2.records = db.records ++ _ := insertMemoryRows_ok_records _ _ _ hins
          have hdb2 : db2 = db' := by
            rcases hrows : (chunkText env.tokenize env.decode (jsTrim content) 220 40).enum.map
                (rememberRow env (env.uuid 0) (opts.scope.getD "global") opts
                  ((chunkText env.tokenize env.decode (jsTrim content) 220 40).map env.embed))
              with _ | ⟨r0, rrest⟩ <;> rw [hrows] at hok
            · cases hok
            · cases hok
              rfl
          subst hdb2
          rw [hrec, List.filter_append]
          have hold : db.records.filter (fun rec => rec.parentId = env.uuid 0) = [] := by
            rw [List.filter_eq_nil_iff]
            intro a ha
            simpa using hfresh a ha
          have hnew : ((chunkText env.tokenize env.decode (jsTrim content) 220 40).enum.map
              (rememberRow env (env.uuid 0) (opts.scope.getD "global") opts
                ((chunkText env.tokenize env.decode (jsTrim content) 220 40).map
                  env.embed))).filter (fun rec => rec.parentId = env.uuid 0)
              = (chunkText env.tokenize env.decode (jsTrim content) 220 40).enum.map
                (rememberRow env (env.uuid 0) (opts.scope.getD "global") opts
                  ((chunkText env.tokenize env.decode (jsTrim content) 220 40).map
                    env.embed)) := by
            rw [List.filter_eq_self]
            intro a ha
            rcases List.mem_map.1 ha with ⟨p, _, rfl⟩
            simp [rememberRow]
          rw [hold, hnew, List.nil_append, List.map_map, List.length_map]
          have hcomp : ((fun rec => rec.chunkIndex) ∘
              (rememberRow env (env.uuid 0) (opts.scope.getD "global") opts
                ((chunkText env.tokenize env.decode (jsTrim content) 220 40).map env.embed)))
              = Prod.fst := by
            funext p
            rfl
          rw [hcomp, List.enum_map_fst]
          simp

/-- A concrete environment: every text tokenizes to one token, every
embedding is empty (so ANN upserts are no-ops and dedup finds
nothing), ids are "p" (parent) and "c" (chunks). -/
noncomputable def envW : Env :=
  { tokenize := fun _ => [0]
    decode := fun _ => "x"
    embed := fun _ => []
    now := 0
    uuid := fun n => if n = 0 then "p" else "c" }

/-- An empty store with the ANN extension unavailable. -/
def dbW : Db := { records := [], annEnabled := false, annTable := none, fts := none }

/-- The row `remember envW dbW "hi" {}` creates. -/
noncomputable def rowW : MemoryRecord :=
  { id := "c"
    parentId := "p"
    chunkIndex := 0
    content := "hi"
    kind := "knowledge"
    scope := "global"
    importance := 0.5
    tokenCount := 1
    recallCount := 0
    lastRecalledAt := none
    validityScore := clamp01 1
    isNegative := false
    createdAt := 0
    updatedAt := 0
    embedding := some [] }

/-- The store after `remember envW dbW "hi" {}`. -/
noncomputable def dbW2 : Db :=
  { records := [rowW], annEnabled := false, annTable := none, fts := none }

theorem rememberW_eq : remember envW dbW "hi" {} = .ok (rowW, dbW2) := rfl

/-- Concrete instance of C7: after the single-chunk `remember` above,
the rows with the fresh parent id have chunk indices `[0]`. -/
theorem c7_witness :
    (dbW2.records.filter (fun rec => rec.parentId = envW.uuid 0)).map (·.chunkIndex)
      = List.range (dbW2.records.filter (fun rec => rec.parentId = envW.uuid 0)).length :=
  c7_chunk_indices_gapless envW dbW "hi" {} rowW dbW2 rememberW_eq
    (by intro rec h; simp [dbW] at h)

/-! ## Claim C1: the stored kind under `kind: "auto"` -/

/-- C1 fails on the code: `remember` stores `options?.kind ??
"knowledge"` verbatim and never consults `inferKindByEmbedding` (which
has no callers anywhere in the repository). At the claim's own input
the stored kind is the literal string "auto", not the classifier
output `reference`. -/
theorem c1_auto_kind_stored_verbatim :
    (remember envW dbW "See docs at https://example.com/spec"
        { kind := some "auto" }).map (fun p => p.1.kind) = .ok "auto"
      ∧ "auto" ≠ MemoryKind.reference.toString := by
  exact ⟨rfl, by decide⟩

/-! ## Claim C8: behaviour with the ANN index disabled -/

theorem searchVectorIds_disabled (db : Db) (q : List ℝ) (k : Nat) (s : Option String)
    (h : db.annEnabled = false) : searchVectorIds db q k s = [] := by
  rw [searchVectorIds, if_pos h]

theorem findDup_disabled (db : Db) (e : List ℝ) (sc : String) (t : ℝ)
    (h : db.annEnabled = false) : findSemanticDuplicate db e sc t = none := by
  rw [findSemanticDuplicate]
  split
  · rfl
  · rw [searchVectorIds_disabled db e 12 (some sc) h]
    exact ite_self none

/-- With the ANN status disabled every probe of the `remember` loop
comes back empty, so the loop only accumulates fresh rows. -/
theorem rememberLoop_disabled (env : Env) (parentId scope : String)
    (opts : RememberOptions) (embeddings : List (List ℝ)) (db : Db)
    (hdis : db.annEnabled = false) :
    ∀ (l : List (Nat × String)) (rows : List MemoryRecord) (fe : Option MemoryRecord),
      rememberLoop env parentId scope opts embeddings db rows fe l
        = .ok (db, rows ++ l.map (rememberRow env parentId scope opts embeddings), fe)
  | [], rows, fe => by simp [rememberLoop]
  | (index, chunk) :: rest, rows, fe => by
      rw [rememberLoop]
      have hscrut : (embeddings[index]? : Option (List ℝ)).bind
          (fun e => findSemanticDuplicate db e scope 0.95) = none := by
        rcases embeddings[index]? with _ | e
        · rfl
        · exact findDup_disabled db e scope 0.95 hdis
      rw [hscrut]
      simp only []
      rw [rememberLoop_disabled env parentId scope opts embeddings db hdis rest _ _]
      simp [List.append_assoc]

theorem insertRowsGo_table_missing_fails (db : Db) (r : MemoryRecord)
    (rest : List MemoryRecord) (htable : db.annTable = none) (v : List ℝ)
    (hv : r.embedding = some v) (hlen : v.length = EMBEDDING_DIM) :
    ∃ e, insertRowsGo db (r :: rest) = .error e := by
  rw [insertRowsGo]
  split
  · exact ⟨"unique_constraint_memory_records_id", rfl⟩
  · simp only []
    have hup : upsertEmbedding { db with records := db.records ++ [r] } r.id r.scope
        r.embedding = .error "no_such_table_memory_vec" := by
      rw [hv, upsertEmbedding]
      rw [if_neg (by rw [hlen]; exact fun h => h rfl)]
      simp only [htable]
    rw [hup]
    exact ⟨"no_such_table_memory_vec", rfl⟩

/-- C8: with the ANN status disabled, vector search returns the empty
list, the semantic-duplicate probe always returns null and the
classifier neighbor search returns the empty list; but `remember` does
NOT succeed in this mode — when the `memory_vec` table is missing and
the embedder produces 384-dimensional vectors, the unguarded
`upsertEmbedding` call inside the insert transaction throws and
`remember` rejects, contradicting the claim. -/
theorem c8_ann_disabled_mode :
    (∀ (db : Db) (q : List ℝ) (k : Nat) (s : Option String), db.annEnabled = false →
      searchVectorIds db q k s = [])
    ∧ (∀ (db : Db) (e : List ℝ) (sc : String) (t : ℝ), db.annEnabled = false →
      findSemanticDuplicate db e sc t = none)
    ∧ (∀ (db : Db) (q : List ℝ) (k : Nat) (s : Option String), db.annEnabled = false →
      searchKindNeighbors db q k s = [])
    ∧ (∀ (env : Env) (db : Db) (content : String) (opts : RememberOptions),
        db.annEnabled = false → db.annTable = none → jsTrim content ≠ "" →
        chunkText env.tokenize env.decode (jsTrim content) 220 40 ≠ [] →
        (∀ chunk ∈ chunkText env.tokenize env.decode (jsTrim content) 220 40,
          (env.embed chunk).length = EMBEDDING_DIM) →
        ∃ e, remember env db content opts = .error e) := by
  refine ⟨searchVectorIds_disabled, findDup_disabled, ?_, ?_⟩
  · intro db q k s h
    rw [searchKindNeighbors, if_pos h]
  · intro env db content opts hdis htable hne hchunks hemb
    rw [remember, if_neg hne]
    simp only []
    rw [if_neg hchunks]
    rw [rememberLoop_disabled env (env.uuid 0) (opts.scope.getD "global") opts
      ((chunkText env.tokenize env.decode (jsTrim content) 220 40).map env.embed) db hdis
      (chunkText env.tokenize env.decode (jsTrim content) 220 40).enum [] none]
    simp only [List.nil_append]
    rcases hc : chunkText env.tokenize env.decode (jsTrim content) 220 40 with _ | ⟨c0, crest⟩
    · exact absurd hc hchunks
    · rw [insertMemoryRows, if_neg (by simp)]
      rw [List.enum_cons, List.map_cons]
      have hrow : (rememberRow env (env.uuid 0) (opts.scope.getD "global") opts
          ((c0 :: crest).map env.embed) (0, c0)).embedding = some (env.embed c0) := by
        simp [rememberRow]
      obtain ⟨e, he⟩ := insertRowsGo_table_missing_fails db _
        ((crest.enumFrom 1).map (rememberRow env (env.uuid 0) (opts.scope.getD "global") opts
          ((c0 :: crest).map env.embed))) htable (env.embed c0) hrow
        (hemb c0 (by rw [hc]; exact List.mem_cons_self _ _))
      refine ⟨e, ?_⟩
      rw [he]

/-- A concrete 384-dimensional unit vector. -/
noncomputable def e384 : List ℝ := 1 :: List.replicate 383 0

theorem e384_length : e384.length = 384 := by
  rw [e384, List.length_cons, List.length_replicate]

theorem sumSq_cons (a : ℝ) (l : List ℝ) : sumSq (a :: l) = a * a + sumSq l := rfl

theorem dotList_cons (a b : ℝ) (l₁ l₂ : List ℝ) :
    dotList (a :: l₁) (b :: l₂) = a * b + dotList l₁ l₂ := rfl

theorem sumSq_replicate_zero (n : Nat) : sumSq (List.replicate n (0 : ℝ)) = 0 := by
  induction n with
  | zero => rfl
  | succ k ih => rw [List.replicate_succ, sumSq_cons, ih]; norm_num

theorem dotList_replicate_zero (n : Nat) :
    dotList (List.replicate n (0 : ℝ)) (List.replicate n 0) = 0 := by
  induction n with
  | zero => rfl
  | succ k ih => rw [List.replicate_succ, dotList_cons, ih]; norm_num

theorem sumSq_e384 : sumSq e384 = 1 := by
  rw [e384, sumSq_cons, sumSq_replicate_zero]
  norm_num

theorem dotList_e384 : dotList e384 e384 = 1 := by
  rw [e384, dotList_cons, dotList_replicate_zero]
  norm_num

theorem cosine_e384 : cosine e384 e384 = 1 := by
  rw [cosine, if_neg, if_neg]
  · rw [dotList_e384, sumSq_e384, Real.sqrt_one]
    norm_num
  · rw [sumSq_e384]
    norm_num
  · rw [e384_length]
    norm_num

/-! ## Claim C2: the dedup-merge path of `remember` -/

/-- The stored row that a first `remember("freedom is the goal", {})`
would leave behind (embedding `e384`, scope `global`). -/
noncomputable def recDup : MemoryRecord :=
  { id := "m0"
    parentId := "m0"
    chunkIndex := 0
    content := "freedom is the goal"
    kind := "knowledge"
    scope := "global"
    importance := 0.5
    tokenCount := 1
    recallCount := 0
    lastRecalledAt := none
    validityScore := 1
    isNegative := false
    createdAt := 0
    updatedAt := 0
    embedding := some e384 }

/-- The store holding `recDup` with a healthy ANN index containing
its vector. -/
noncomputable def dbDup : Db :=
  { records := [recDup]
    annEnabled := true
    annTable := some [⟨"m0", "global", e384⟩]
    fts := none }

/-- An environment whose embedder sends every text to `e384`, so a
re-remembered text collides with `recDup` at cosine similarity 1. -/
noncomputable def envDup : Env :=
  { tokenize := fun _ => [0]
    decode := fun _ => "x"
    embed := fun _ => e384
    now := 0
    uuid := fun n => if n = 0 then "p" else "c" }

theorem searchVectorIds_dbDup : searchVectorIds dbDup e384 12 (some "global") = ["m0"] := by
  rw [searchVectorIds, if_neg (by simp [dbDup])]
  rw [searchNearest, if_neg (by rw [e384_length]; norm_num [EMBEDDING_DIM])]
  simp only [dbDup]
  simp [List.mergeSort_singleton]

theorem findDup_dbDup : findSemanticDuplicate dbDup e384 "global" 0.95 = some recDup := by
  rw [findSemanticDuplicate, if_neg (by rw [e384_length]; norm_num)]
  simp only []
  rw [searchVectorIds_dbDup]
  have hload : loadMemoriesByIds dbDup ["m0"] = [recDup] := by
    simp [loadMemoriesByIds, dbDup, recDup]
  rw [hload]
  have hfold : [recDup].foldl (dupFoldStep e384) (none, -1) = (some recDup, 1) := by
    simp only [List.foldl_cons, List.foldl_nil, dupFoldStep]
    rw [show recDup.embedding = some e384 from rfl]
    simp only []
    rw [cosine_e384]
    rw [if_pos (by norm_num : (1 : ℝ) > -1)]
  rw [hfold]
  rw [if_pos (by norm_num)]

/-- C2 fails on the code: re-remembering a stored text does find the
duplicate at threshold 0.95, but the merge call then throws because
`remember` omits the `kind` field that `mergeIntoExistingMemory`
binds into its UPDATE, so the second call rejects instead of merging
(and no importance/validity update happens at all). -/
theorem c2_second_remember_throws :
    remember envDup dbDup "freedom is the goal" {} = .error "sqlite_cannot_bind_undefined" := by
  rw [remember, if_neg (by decide)]
  set_option maxRecDepth 4000 in simp only []
  rw [if_neg (by decide)]
  have hchunks : chunkText envDup.tokenize envDup.decode (jsTrim "freedom is the goal") 220 40
      = ["freedom is the goal"] := by decide
  rw [hchunks]
  rw [show (["freedom is the goal"] : List String).enum = [(0, "freedom is the goal")] from rfl]
  rw [rememberLoop]
  have hscrut : ((["freedom is the goal"].map envDup.embed)[0]? : Option (List ℝ)).bind
      (fun e => findSemanticDuplicate dbDup e (({} : RememberOptions).scope.getD "global") 0.95)
      = some recDup := by
    rw [show ((["freedom is the goal"].map envDup.embed)[0]? : Option (List ℝ))
      = some e384 from rfl]
    rw [Option.some_bind]
    exact findDup_dbDup
  rw [hscrut]
  simp only []
  rw [merge_undefined_kind]

/-- Concrete instances of C8: on the ANN-disabled store `dbW`, vector
search is empty, dedup is null, neighbor search is empty — and a
`remember` of "hello" with a 384-dimensional embedder rejects. -/
theorem c8_witness :
    searchVectorIds dbW e384 12 (some "global") = []
    ∧ findSemanticDuplicate dbW e384 "global" 0.95 = none
    ∧ searchKindNeighbors dbW e384 20 none = []
    ∧ (∃ e, remember envDup dbW "hello" {} = .error e) :=
  ⟨c8_ann_disabled_mode.1 dbW e384 12 (some "global") rfl,
    c8_ann_disabled_mode.2.1 dbW e384 "global" 0.95 rfl,
    c8_ann_disabled_mode.2.2.1 dbW e384 20 none rfl,
    c8_ann_disabled_mode.2.2.2 envDup dbW "hello" {} rfl rfl (by decide) (by decide)
      (fun chunk _ => e384_length)⟩

/-! ## Claim C10: the ANN index only ever holds 384-dimensional vectors -/

/-- Every vector in the `memory_vec` table has the embedder dimension. -/
def annDimOk (db : Db) : Prop :=
  ∀ e ∈ db.annTable.getD [], (AnnEntry.vec e).length = EMBEDDING_DIM

theorem searchNearest_subset (db : Db) (q : List ℝ) (k : Nat) (s : Option String)
    (hits : List (String × ℝ)) (h : searchNearest db q k s = .ok hits) :
    ∀ x ∈ hits, x.1 ∈ (db.annTable.getD []).map AnnEntry.id := by
  rw [searchNearest] at h
  split at h
  · cases h
    intro x hx
    exact absurd hx (List.not_mem_nil x)
  · rcases htab : db.annTable with _ | entries <;> rw [htab] at h
    · cases h
    · simp only [] at h
      cases h
      intro x hx
      rcases List.mem_map.1 hx with ⟨e, he, rfl⟩
      have h1 : e ∈ List.take k (List.mergeSort _ _) := he
      have h2 := List.mem_mergeSort.mp (List.mem_of_mem_take h1)
      have h3 : e ∈ entries := by
        rcases s with _ | sc
        · exact h2
        · exact List.mem_of_mem_filter h2
      exact List.mem_map.2 ⟨e, h3, rfl⟩

theorem dupFold_mem (emb : List ℝ) (r : MemoryRecord) :
    ∀ (l : List MemoryRecord) (acc : Option MemoryRecord × ℝ),
      (l.foldl (dupFoldStep emb) acc).1 = some r → acc.1 = some r ∨ r ∈ l
  | [], acc, h => Or.inl h
  | c :: l, acc, h => by
      rcases dupFold_mem emb r l (dupFoldStep emb acc c) h with h1 | h1
      · rcases acc with ⟨best, bestScore⟩
        simp only [dupFoldStep] at h1
        rcases hce : c.embedding with _ | ce <;> rw [hce] at h1 <;> simp only [] at h1
        · exact Or.inl h1
        · by_cases hgt : cosine emb ce > bestScore
          · rw [if_pos hgt] at h1
            simp only [Option.some.injEq] at h1
            exact Or.inr (h1 ▸ List.mem_cons_self _ _)
          · rw [if_neg hgt] at h1
            exact Or.inl h1
      · exact Or.inr (List.mem_cons_of_mem _ h1)

/-- C10: `upsertEmbedding` preserves the all-vectors-384-dimensional
invariant of `memory_vec` (as does `deleteEmbedding`), silently does
nothing for a null or wrong-dimension embedding, and any id returned
by vector search — and hence any record returned by the semantic
dedup probe — comes from the ANN table. -/
theorem c10_ann_dim_and_invisibility :
    (∀ (db : Db) (id scope : String) (v : Option (List ℝ)) (db' : Db), annDimOk db →
      upsertEmbedding db id scope v = .ok db' → annDimOk db')
    ∧ (∀ (db : Db) (id : String) (db' : Db), annDimOk db →
      deleteEmbedding db id = .ok db' → annDimOk db')
    ∧ (∀ (db : Db) (id scope : String) (v : List ℝ), v.length ≠ EMBEDDING_DIM →
      upsertEmbedding db id scope (some v) = .ok db)
    ∧ (∀ (db : Db) (id scope : String), upsertEmbedding db id scope none = .ok db)
    ∧ (∀ (db : Db) (q : List ℝ) (k : Nat) (s : Option String) (i : String),
        i ∈ searchVectorIds db q k s → i ∈ (db.annTable.getD []).map AnnEntry.id)
    ∧ (∀ (db : Db) (e : List ℝ) (sc : String) (t : ℝ) (r : MemoryRecord),
        findSemanticDuplicate db e sc t = some r →
        r.id ∈ (db.annTable.getD []).map AnnEntry.id ∧ r ∈ db.records) := by
  have hsearch : ∀ (db : Db) (q : List ℝ) (k : Nat) (s : Option String) (i : String),
      i ∈ searchVectorIds db q k s → i ∈ (db.annTable.getD []).map AnnEntry.id := by
    intro db q k s i hi
    rw [searchVectorIds] at hi
    split at hi
    · exact absurd hi (List.not_mem_nil i)
    · rcases hsn : searchNearest db q k s with e | hits <;> rw [hsn] at hi
      · exact absurd hi (List.not_mem_nil i)
      · rcases List.mem_map.1 hi with ⟨x, hx, rfl⟩
        exact searchNearest_subset db q k s hits hsn x hx
  refine ⟨?_, ?_, ?_, ?_, hsearch, ?_⟩
  · intro db id scope v db' hdim h
    rcases v with _ | v
    · cases h
      exact hdim
    · rw [upsertEmbedding] at h
      split at h
      · cases h
        exact hdim
      · rcases htab : db.annTable with _ | entries <;> rw [htab] at h
        · cases h
        · cases h
          intro e he
          simp only [Option.getD_some] at he
          rcases List.mem_append.1 he with h1 | h1
          · exact hdim e (by rw [htab]; exact List.mem_of_mem_filter h1)
          · rcases List.mem_singleton.1 h1 with rfl
            simp only [AnnEntry.vec]
            omega
  · intro db id db' hdim h
    rw [deleteEmbedding] at h
    rcases htab : db.annTable with _ | entries <;> rw [htab] at h
    · cases h
    · cases h
      intro e he
      simp only [Option.getD_some] at he
      exact hdim e (by rw [htab]; exact List.mem_of_mem_filter he)
  · intro db id scope v h
    rw [upsertEmbedding, if_pos h]
  · intro db id scope
    rfl
  · intro db e sc t r h
    rw [findSemanticDuplicate] at h
    split at h
    · cases h
    · simp only [] at h
      split at h
      · rcases dupFold_mem e r (loadMemoriesByIds db (searchVectorIds db e 12 (some sc)))
            (none, -1) h with h1 | h1
        · cases h1
        · rcases List.mem_filterMap.1 h1 with ⟨i, hi, hfind⟩
          have hrec : r ∈ db.records := List.mem_of_find?_eq_some hfind
          have hid : r.id = i := by
            have := List.find?_some hfind
            exact of_decide_eq_true this
          exact ⟨hid ▸ hsearch db e 12 (some sc) i hi, hrec⟩
      · cases h

/-- Concrete instances of C10: a wrong-dimension upsert is a no-op,
the empty store trivially satisfies the dimension invariant after a
null upsert, and the id found by the dedup probe of `dbDup` lies in
its ANN table. -/
theorem c10_witness :
    upsertEmbedding dbDup "z" "global" (some [(1 : ℝ)]) = .ok dbDup
    ∧ annDimOk dbW
    ∧ "m0" ∈ (dbDup.annTable.getD []).map AnnEntry.id
    ∧ (recDup.id ∈ (dbDup.annTable.getD []).map AnnEntry.id ∧ recDup ∈ dbDup.records) :=
  ⟨c10_ann_dim_and_invisibility.2.2.1 dbDup "z" "global" [(1 : ℝ)] (by decide),
    c10_ann_dim_and_invisibility.1 dbW "x" "g" none dbW
      (by intro e he; simp [dbW] at he)
      (c10_ann_dim_and_invisibility.2.2.2.1 dbW "x" "g"),
    c10_ann_dim_and_invisibility.2.2.2.2.1 dbDup e384 12 (some "global") "m0"
      (by rw [searchVectorIds_dbDup]; exact List.mem_singleton.mpr rfl),
    c10_ann_dim_and_invisibility.2.2.2.2.2 dbDup e384 "global" 0.95 recDup findDup_dbDup⟩

end Roy
